import Mathlib

/-!
Shallow embedding of the scene-merging and highlight-selection engine of the
shorts-generation repository (src/scene_detector.py and
src/highlight_selector.py), together with theorems settling the frozen claims
about it.  Times and scores are modelled as rationals; Python lists become
Lean lists; the two imperative loops (the merge pass and the candidate-window
growth) become structural recursions that thread the same state the loops
mutate.
-/

namespace ShortsGen

/-- Embeds the `Scene` class of src/scene_detector.py: `start_time`, `end_time`
and the list of `(start, end)` speech segments.  The Python constructor stores
`duration`, `speech_duration` and `speech_density` as derived attributes; here
they are derived functions. -/
structure Scene where
  start_time : ℚ
  end_time : ℚ
  speech_segments : List (ℚ × ℚ)
deriving DecidableEq, Repr

instance : Inhabited Scene := ⟨⟨0, 0, []⟩⟩

/-- `self.duration = end_time - start_time`. -/
def Scene.duration (s : Scene) : ℚ := s.end_time - s.start_time

/-- `self.speech_duration = sum(end - start for start, end in self.speech_segments)`. -/
def Scene.speech_duration (s : Scene) : ℚ :=
  (s.speech_segments.map (fun p => p.2 - p.1)).sum

/-- `self.speech_density = self.speech_duration / self.duration if self.duration > 0 else 0`. -/
def Scene.speech_density (s : Scene) : ℚ :=
  if 0 < s.duration then s.speech_duration / s.duration else 0

/-- The fused scene built inside `merge_short_scenes`:
`Scene(a.start_time, b.end_time, a.speech_segments + b.speech_segments)`. -/
def fuse_scenes (a b : Scene) : Scene :=
  ⟨a.start_time, b.end_time, a.speech_segments ++ b.speech_segments⟩

/-- The `for next_scene in scenes[1:]` loop of `merge_short_scenes`
(src/scene_detector.py lines 131-145).  Returns the `merged` list accumulated
by the loop together with the final value of `current`. -/
def merge_pass (min_duration : ℚ) : Scene → List Scene → List Scene × Scene
  | current, [] => ([], current)
  | current, next_scene :: rest =>
    if current.duration < min_duration then
      merge_pass min_duration (fuse_scenes current next_scene) rest
    else
      let mc := merge_pass min_duration next_scene rest
      (current :: mc.1, mc.2)

/-- Embeds `SceneDetector.merge_short_scenes` (src/scene_detector.py lines
117-163): the merge pass followed by the tail handling (append the last
`current` if large enough, otherwise fuse it backward into the last emitted
scene, or emit it alone when nothing was emitted). -/
def merge_short_scenes (scenes : List Scene) (min_duration : ℚ) : List Scene :=
  match scenes with
  | [] => []
  | first :: rest =>
    if min_duration ≤ (merge_pass min_duration first rest).2.duration then
      (merge_pass min_duration first rest).1 ++ [(merge_pass min_duration first rest).2]
    else
      match (merge_pass min_duration first rest).1 with
      | [] => [(merge_pass min_duration first rest).2]
      | m :: ms =>
        (m :: ms).dropLast ++
          [fuse_scenes ((m :: ms).getLast (List.cons_ne_nil m ms))
            (merge_pass min_duration first rest).2]

/-! ## Text processing helpers

Python string operations used by `_score_text_with_keywords`
(src/highlight_selector.py lines 59-111) modelled over lists of characters.
-/

/-- Counts the maximal runs of characters satisfying `p`; the boolean flag
records whether the previous character was inside such a run. -/
def count_runs (p : Char → Bool) : List Char → Bool → ℕ
  | [], _ => 0
  | c :: cs, inRun =>
    if p c then (if inRun then 0 else 1) + count_runs p cs true
    else count_runs p cs false

/-- `len(text.split())`: the number of maximal non-whitespace runs. -/
def word_count (l : List Char) : ℕ :=
  count_runs (fun c => !c.isWhitespace) l false

/-- Membership test for sentence delimiters, the character class of the
pattern used by `re.split` in the source. -/
def sentence_delim (c : Char) : Bool := c == '.' || c == '!' || c == '?'

/-- `len(re.split(pattern, text))` for the sentence-delimiter pattern: the
split always yields one more piece than there are maximal delimiter runs. -/
def sentence_count (l : List Char) : ℕ :=
  1 + count_runs sentence_delim l false

/-- Whether the first list is a prefix of the second (character comparison). -/
def starts_with_chars : List Char → List Char → Bool
  | [], _ => true
  | _ :: _, [] => false
  | a :: as, b :: bs => a == b && starts_with_chars as bs

/-- The Python substring test `needle in haystack`: the needle occurs as a
contiguous sublist (the empty needle always occurs). -/
def contains_chars (needle : List Char) : List Char → Bool
  | [] => starts_with_chars needle []
  | hay@(_ :: t) => starts_with_chars needle hay || contains_chars needle t

/-- Python `str.strip()`: drop whitespace from both ends. -/
def strip_chars (l : List Char) : List Char :=
  ((l.dropWhile Char.isWhitespace).reverse.dropWhile Char.isWhitespace).reverse

/-- `self.viral_keywords` from `HighlightSelector.__init__`
(src/highlight_selector.py lines 22-32): a flat list of 36 keywords. -/
def viral_keywords : List String := [
  "amazing", "awesome", "incredible", "shocking",
  "mind-blowing", "insane", "unbelievable", "viral",
  "trending", "epic", "revolutionary", "game-changing",
  "breakthrough", "genius", "masterpiece", "perfect",
  "stunning", "extraordinary", "phenomenal", "legendary",
  "important", "key point", "essential", "crucial",
  "highlight", "main idea", "summary", "conclusion",
  "therefore", "result", "consequently", "because",
  "explains", "demonstrates", "shows", "proves"
]

/-- `sum(1 for kw in kws if kw.lower() in text)`: how many keywords of a tier
occur in the (already lowercased) text. -/
def tier_count (kws : List String) (t : List Char) : ℕ :=
  kws.countP (fun kw => contains_chars (kw.data.map Char.toLower) t)

/-- The four-tier keyword score of `_score_text_with_keywords`
(src/highlight_selector.py lines 76-87): positional slices of
`viral_keywords` weighted 0.15 / 0.25 / 0.3 / 0.2. -/
def keyword_score (t : List Char) : ℚ :=
  (tier_count (viral_keywords.take 30) t : ℚ) * 0.15 +
  (tier_count ((viral_keywords.drop 30).take 10) t : ℚ) * 0.25 +
  (tier_count ((viral_keywords.drop 40).take 12) t : ℚ) * 0.3 +
  (tier_count (viral_keywords.drop 52) t : ℚ) * 0.2

/-- Embeds `HighlightSelector._score_text_with_keywords`
(src/highlight_selector.py lines 59-111).  The text is lowercased; degenerate
text (fewer than 5 words or zero sentences) scores 0; otherwise the keyword,
quality and density sub-scores are combined and capped at 1.  The quote test
uses the double-quote (34) and apostrophe (39) characters. -/
def score_text_with_keywords (text : String) : ℚ :=
  let t := text.data.map Char.toLower
  let wc := word_count t
  let sc := sentence_count t
  if wc < 5 ∨ sc = 0 then 0
  else
    let content_density : ℚ := (wc : ℚ) / (sc : ℚ)
    let density_score : ℚ := min (content_density / 10) 1
    let has_question := t.contains '?'
    let has_exclamation := t.contains '!'
    let has_number := t.any Char.isDigit
    let has_quotes := t.contains (Char.ofNat 34) || t.contains (Char.ofNat 39)
    let optimal_length := 10 ≤ wc ∧ wc ≤ 30
    let quality_score : ℚ :=
      (if has_question then 0.2 else 0) +
      (if has_exclamation then 0.15 else 0) +
      (if has_number then 0.1 else 0) +
      (if has_quotes then 0.15 else 0) +
      (if optimal_length then 0.2 else 0)
    let final_score := keyword_score t * 0.4 + quality_score * 0.3 + density_score * 0.3
    min final_score 1

/-- The first maximal digit run of the response text, as a number: models
`re.search` for a digit-run pattern followed by `float(match.group())`.
`digits_value` accumulates the run left to right. -/
def digits_value (acc : ℕ) : List Char → ℕ
  | [] => acc
  | c :: cs => if c.isDigit then digits_value (acc * 10 + (c.toNat - 48)) cs else acc

/-- The leftmost digit run of the list, if any. -/
def first_number : List Char → Option ℕ
  | [] => none
  | c :: cs => if c.isDigit then some (digits_value (c.toNat - 48) cs) else first_number cs

/-- The externally observed outcome of the Cohere API call made by
`_score_text_with_cohere`: either the generation text of a successful
response, or a raised exception (timeout, unreachable service, client error).
The call itself is an external collaborator; its outcome is an input here. -/
inductive CohereOutcome where
  | response (generationText : String)
  | exception
deriving DecidableEq

/-- Embeds `HighlightSelector._score_text_with_cohere`
(src/highlight_selector.py lines 34-57): on a successful response, strip the
generation text and search it for a number, returning number/100, or the
fixed default 0.5 when no number parses; on an exception, fall back to
`score_text_with_keywords`. -/
def score_text_with_cohere (outcome : CohereOutcome) (text : String) : ℚ :=
  match outcome with
  | .response generationText =>
    match first_number (strip_chars generationText.data) with
    | some n => (n : ℚ) / 100
    | none => 0.5
  | .exception => score_text_with_keywords text

/-! ## Highlight selection pipeline (src/highlight_selector.py) -/

/-- A word timestamp dictionary from the transcription result: keys `start`,
`end`, and optionally `word` or `text` (the source reads
`timestamp.get('word', timestamp.get('text', ''))`). -/
structure Timestamp where
  start : ℚ
  stop : ℚ
  word : Option String
  text : Option String
deriving DecidableEq

/-- The part of the transcription result that `select_highlights` reads:
`transcription_result.words`. -/
structure TranscriptionResult where
  words : List Timestamp
deriving DecidableEq

/-- Embeds `HighlightSelector._get_text_for_timerange`
(src/highlight_selector.py lines 113-120): concatenate, with a trailing
space each, the words whose interval lies fully inside the range, then
strip the result. -/
def get_text_for_timerange (word_timestamps : List Timestamp)
    (start_time end_time : ℚ) : String :=
  ⟨strip_chars (((word_timestamps.filter
      (fun ts => decide (start_time ≤ ts.start ∧ ts.stop ≤ end_time))).map
      (fun ts => (ts.word.getD (ts.text.getD "")).data ++ [' '])).flatten)⟩

/-- `HighlightSelector._score_text`: delegates to the keyword heuristic. -/
def score_text (text : String) : ℚ := score_text_with_keywords text

/-- `HighlightSelector._score_context`: `len(text.split()) / 100.0`. -/
def score_context (text : String) : ℚ := (word_count text.data : ℚ) / 100

/-- `HighlightSelector._score_transitions`: `len(scenes) / 10.0`. -/
def score_transitions (group : List Scene) : ℚ := (group.length : ℚ) / 10

/-- The `context_window = 5` local of `select_highlights`. -/
def context_window : ℚ := 5

/-- One entry of the `scored_groups` list built by `select_highlights`
(src/highlight_selector.py lines 219-226): the group with its padded time
range, duration, extracted text and total score. -/
structure ScoredGroup where
  scenes : List Scene
  start_time : ℚ
  end_time : ℚ
  duration : ℚ
  text : String
  score : ℚ
deriving DecidableEq

/-- The scoring step of `select_highlights` for one group
(src/highlight_selector.py lines 199-226).  The groups this is applied to are
always non-empty, so `headI` and `getLastI` read `group[0]` and `group[-1]`. -/
def make_scored_group (words : List Timestamp) (group : List Scene) : ScoredGroup :=
  let start_time := max 0 (group.headI.start_time - context_window)
  let end_time := min (group.getLastI.end_time + context_window) group.getLastI.end_time
  let duration := end_time - start_time
  let text := get_text_for_timerange words start_time end_time
  let total_score :=
    score_text text * 0.5 + score_context text * 0.3 + score_transitions group * 0.2
  ⟨group, start_time, end_time, duration, text, total_score⟩

/-- The emit check of the window-growth loop (src/highlight_selector.py lines
183-192): once `good_duration` holds, or the duration has reached
`adaptive_min` at a natural break, append the context-extended slice
`scenes[max(0, i-1) : min(len(scenes), j+2)]` to the accumulated groups
(`adaptive_min` is always `min_duration`; natural subtraction realises the
`max(0, i-1)` clamp). -/
def emit_candidate (scenes : List Scene) (i j : ℕ)
    (adaptive_min adaptive_max dur1 : ℚ) (natural_break : Bool)
    (acc : List (List Scene)) : List (List Scene) :=
  if (adaptive_min ≤ dur1 ∧ dur1 ≤ adaptive_max) ∨
      (adaptive_min ≤ dur1 ∧ natural_break = true) then
    acc ++ [(scenes.take (min scenes.length (j + 2))).drop (i - 1)]
  else acc

/-- The inner `for j in range(i, len(scenes))` loop of `select_highlights`
(src/highlight_selector.py lines 155-196), growing one candidate window from
start index `i`.  `fuel` counts the iterations left (`scenes.length - j` at
every call), so the recursion is structural; `group`, `dur`, `sf`, `tf` and
`acc` are the loop state (`current_group`, `current_duration`,
`speech_frames`, `total_frames`, `scene_groups`).  The `hasattr` test on
`speech_density` is always true for `Scene` and is dropped. -/
def grow_candidates (min_duration max_duration : ℚ) (scenes : List Scene) (i : ℕ) :
    ℕ → ℕ → List Scene → ℚ → ℚ → ℚ → List (List Scene) → List (List Scene)
  | 0, _, _, _, _, _, acc => acc
  | fuel + 1, j, group, dur, sf, tf, acc =>
    let scene := scenes.getD j default
    let group1 := group ++ [scene]
    let dur1 := dur + scene.duration
    let sf1 := sf + scene.speech_duration * 30
    let tf1 := tf + scene.duration * 30
    let speech_density := sf1 / max 1 tf1
    let content_richness : ℚ := min 1 ((group1.length : ℚ) / 10)
    let adaptive_max := min max_duration
      (min_duration + (max_duration - min_duration) *
        (0.5 * speech_density + 0.5 * content_richness))
    let natural_break := decide (i < j ∧ j + 1 < scenes.length ∧
      scene.speech_segments = [] ∧ (scenes.getD (j + 1) default).speech_segments ≠ [])
    let acc1 := emit_candidate scenes i j min_duration adaptive_max dur1 natural_break acc
    if max_duration < dur1 then acc1
    else grow_candidates min_duration max_duration scenes i fuel (j + 1) group1 dur1 sf1 tf1 acc1

/-- The `scene_groups` list accumulated over every start index `i`
(src/highlight_selector.py lines 144-196). -/
def scene_groups (min_duration max_duration : ℚ) (scenes : List Scene) :
    List (List Scene) :=
  (List.range scenes.length).foldl
    (fun acc i =>
      grow_candidates min_duration max_duration scenes i (scenes.length - i) i [] 0 0 0 acc)
    []

/-- The mapping of every candidate group to its scored record
(src/highlight_selector.py lines 199-226). -/
def scored_groups (min_duration max_duration : ℚ) (scenes : List Scene)
    (words : List Timestamp) : List ScoredGroup :=
  (scene_groups min_duration max_duration scenes).map (make_scored_group words)

/-- Stable insertion of a group into a score-descending list: the group goes
in front of the first entry whose score does not exceed its own, so among
equal scores earlier-generated groups stay first. -/
def insert_desc (g : ScoredGroup) : List ScoredGroup → List ScoredGroup
  | [] => [g]
  | h :: t => if h.score ≤ g.score then g :: h :: t else h :: insert_desc g t

/-- `scored_groups.sort(key=score, reverse=True)`: the stable descending sort
of the scored groups, realised as an insertion sort. -/
def sort_desc (l : List ScoredGroup) : List ScoredGroup :=
  l.foldr insert_desc []

/-- The overlap scan of the greedy loop (src/highlight_selector.py lines
234-239): the candidate conflicts with some already selected group. -/
def overlaps_any (g : ScoredGroup) (selected : List ScoredGroup) : Bool :=
  selected.any (fun s => decide (g.start_time < s.end_time ∧ g.end_time > s.start_time))

/-- The greedy selection loop of `select_highlights`
(src/highlight_selector.py lines 230-244): walk the sorted candidates,
accept each non-conflicting one, and stop as soon as the selected count
reaches `max_highlights` (checked after the append). -/
def greedy_select (max_highlights : ℕ) : List ScoredGroup → List ScoredGroup → List ScoredGroup
  | selected, [] => selected
  | selected, g :: rest =>
    if overlaps_any g selected then greedy_select max_highlights selected rest
    else if max_highlights ≤ (selected ++ [g]).length then selected ++ [g]
    else greedy_select max_highlights (selected ++ [g]) rest

/-- Embeds the `Highlight` class (src/highlight_selector.py lines 6-14);
the constructor derives `duration = end_time - start_time`. -/
structure Highlight where
  start_time : ℚ
  end_time : ℚ
  duration : ℚ
  score : ℚ
  text : String
  scene : Scene
deriving DecidableEq

/-- Embeds `HighlightSelector.select_highlights`
(src/highlight_selector.py lines 133-256): build the candidate groups, score
them, sort by score descending, greedily select non-overlapping ones, and
wrap each as a `Highlight` anchored at the first scene of its group.
`min_duration` and `max_duration` are the selector construction parameters
read into locals at the top of the method. -/
def select_highlights (min_duration max_duration : ℚ) (scenes : List Scene)
    (transcription_result : Option TranscriptionResult) (max_highlights : ℕ) :
    List Highlight :=
  let words := match transcription_result with
    | some r => r.words
    | none => []
  let scored := scored_groups min_duration max_duration scenes words
  let selected := greedy_select max_highlights [] (sort_desc scored)
  selected.map (fun g =>
    ⟨g.start_time, g.end_time, g.end_time - g.start_time, g.score, g.text, g.scenes.headI⟩)

/-! ## Lemmas about the merge pass -/

/-- Every scene flushed to `merged` during the pass was flushed because its
duration had reached `min_duration`. -/
theorem merge_pass_merged_ge (d : ℚ) :
    ∀ (rest : List Scene) (current : Scene),
      ∀ s ∈ (merge_pass d current rest).1, d ≤ s.duration := by
  intro rest
  induction rest with
  | nil => intro current s hs; simp [merge_pass] at hs
  | cons next rest ih =>
    intro current s hs
    rw [merge_pass] at hs
    by_cases h : current.duration < d
    · rw [if_pos h] at hs
      exact ih _ s hs
    · rw [if_neg h] at hs
      simp only [List.mem_cons] at hs
      rcases hs with rfl | hs
      · exact le_of_not_lt h
      · exact ih _ s hs

/-- `getLastD` of a non-empty list ignores the default. -/
theorem getLastD_of_ne_nil {α : Type} (a x y : α) (l : List α) :
    (a :: l).getLastD x = (a :: l).getLastD y := by
  induction l generalizing a with
  | nil => rfl
  | cons b t ih => simp only [List.getLastD_cons]

/-- The first scene of the pass result (the head of `merged`, or the final
`current` when nothing was flushed) starts where the initial `current`
starts: fusion never moves the left endpoint. -/
theorem merge_pass_head_start (d : ℚ) :
    ∀ (rest : List Scene) (current : Scene),
      ((merge_pass d current rest).1.headD (merge_pass d current rest).2).start_time
        = current.start_time := by
  intro rest
  induction rest with
  | nil => intro current; simp [merge_pass]
  | cons next rest ih =>
    intro current
    rw [merge_pass]
    by_cases h : current.duration < d
    · rw [if_pos h, ih (fuse_scenes current next)]
      rfl
    · rw [if_neg h]
      simp

/-- The final `current` of the pass ends where the last input scene ends:
fusion never moves the right endpoint backwards. -/
theorem merge_pass_last_end (d : ℚ) :
    ∀ (rest : List Scene) (current : Scene),
      (merge_pass d current rest).2.end_time = (rest.getLastD current).end_time := by
  intro rest
  induction rest with
  | nil => intro current; simp [merge_pass]
  | cons next rest ih =>
    intro current
    rw [merge_pass]
    by_cases h : current.duration < d
    · rw [if_pos h, ih (fuse_scenes current next)]
      cases rest with
      | nil => rfl
      | cons a l => simp only [List.getLastD_cons]
    · rw [if_neg h]
      show (merge_pass d next rest).2.end_time = _
      rw [ih next]
      cases rest with
      | nil => rfl
      | cons a l => simp only [List.getLastD_cons]

/-- The head of `merged ++ [current]` as an option. -/
theorem head_append_single {α : Type} (l : List α) (c : α) :
    (l ++ [c]).head? = some (l.headD c) := by
  cases l <;> simp

/-- An ordered input with non-negative durations stays ordered with
non-negative durations through the merge pass (fusing two adjacent scenes
spans their union). -/
theorem merge_pass_chain (d : ℚ) :
    ∀ (rest : List Scene) (current : Scene),
      List.Chain' (fun a b => a.end_time ≤ b.start_time) (current :: rest) →
      (∀ s ∈ current :: rest, s.start_time ≤ s.end_time) →
      List.Chain' (fun a b => a.end_time ≤ b.start_time)
          ((merge_pass d current rest).1 ++ [(merge_pass d current rest).2]) ∧
        ∀ s ∈ (merge_pass d current rest).1 ++ [(merge_pass d current rest).2],
          s.start_time ≤ s.end_time := by
  intro rest
  induction rest with
  | nil =>
    intro current _ hnn
    refine ⟨by simp [merge_pass], ?_⟩
    intro s hs
    simp [merge_pass] at hs
    exact hnn s (by simp [hs])
  | cons next rest ih =>
    intro current hch hnn
    rw [List.chain'_cons] at hch
    rw [merge_pass]
    by_cases h : current.duration < d
    · rw [if_pos h]
      apply ih (fuse_scenes current next)
      · rw [List.chain'_cons'] at hch ⊢
        exact ⟨fun b hb => hch.2.1 b hb, hch.2.2⟩
      · intro s hs
        rcases List.mem_cons.mp hs with rfl | hs
        · show current.start_time ≤ next.end_time
          have h1 := hnn current (by simp)
          have h2 := hnn next (by simp)
          linarith [hch.1]
        · exact hnn s (by simp [hs])
    · rw [if_neg h]
      have hih := ih next (hch.2) (fun s hs => hnn s (by simp at hs ⊢; tauto))
      refine ⟨?_, ?_⟩
      · show List.Chain' _ ((current :: (merge_pass d next rest).1) ++ _)
        rw [List.cons_append, List.chain'_cons']
        refine ⟨?_, hih.1⟩
        intro b hb
        rw [head_append_single] at hb
        have hb2 : b = ((merge_pass d next rest).1.headD (merge_pass d next rest).2) :=
          Option.some_injective _ hb.symm
        subst hb2
        show current.end_time ≤ _
        have := merge_pass_head_start d rest next
        calc current.end_time ≤ next.start_time := hch.1
          _ = _ := this.symm
          _ = _ := rfl
      · intro s hs
        rw [List.cons_append, List.mem_cons] at hs
        rcases hs with rfl | hs
        · exact hnn _ (by simp)
        · exact hih.2 s hs

/-- Helper: the head of a list with a singleton appended. -/
theorem headI_append_single {α : Type} [Inhabited α] (l : List α) (c : α) :
    (l ++ [c]).headI = l.headD c := by
  cases l <;> rfl

/-- Helper: the last element of a list with a singleton appended. -/
theorem getLastI_append_single {α : Type} [Inhabited α] (l : List α) (c : α) :
    (l ++ [c]).getLastI = c := by
  rw [List.getLastI_eq_getLast?, List.getLast?_concat]

/-- Helper: `getLastI` of a cons cell via `getLastD`. -/
theorem getLastI_cons_eq {α : Type} [Inhabited α] (a : α) (l : List α) :
    (a :: l).getLastI = l.getLastD a := by
  rw [List.getLastI_eq_getLast?, List.getLastD_eq_getLast?]
  cases l with
  | nil => rfl
  | cons b t =>
    rw [List.getLast?_cons_cons]
    cases h : (b :: t).getLast? with
    | none => simp at h
    | some x => rfl

/-- Helper: a cons list is its `dropLast` with its `getLastD` appended. -/
theorem dropLast_append_getLastD {α : Type} (a : α) (l : List α) :
    (a :: l).dropLast ++ [l.getLastD a] = a :: l := by
  induction l generalizing a with
  | nil => rfl
  | cons b t ih =>
    rw [List.getLastD_cons]
    show a :: ((b :: t).dropLast ++ [t.getLastD b]) = a :: b :: t
    rw [ih b]

/-- When every scene already meets the duration floor, the pass flushes each
scene unchanged: it returns all but the last as `merged` and the last as the
final `current`. -/
theorem merge_pass_all_ge (d : ℚ) :
    ∀ (rest : List Scene) (current : Scene),
      (∀ s ∈ current :: rest, d ≤ s.duration) →
      merge_pass d current rest = ((current :: rest).dropLast, rest.getLastD current) := by
  intro rest
  induction rest with
  | nil => intro current _; rfl
  | cons next rest ih =>
    intro current h
    rw [merge_pass, if_neg (not_lt.mpr (h current (by simp)))]
    show (current :: (merge_pass d next rest).1, (merge_pass d next rest).2) = _
    rw [ih next (fun s hs => h s (by simp at hs ⊢; tauto))]
    rw [List.getLastD_cons]
    rfl

/-- C5: `merge_short_scenes` is the identity on its own fixed points — on any
scene sequence in which every scene already has duration at least
`min_duration`, the merge returns the sequence unchanged. -/
theorem merge_short_scenes_idempotent (scenes : List Scene) (min_duration : ℚ)
    (h : ∀ s ∈ scenes, min_duration ≤ s.duration) :
    merge_short_scenes scenes min_duration = scenes := by
  cases scenes with
  | nil => rfl
  | cons first rest =>
    rw [merge_short_scenes]
    rw [merge_pass_all_ge min_duration rest first h]
    have hmem : rest.getLastD first ∈ first :: rest := List.getLastD_mem_cons rest first
    rw [if_pos (h _ hmem)]
    exact dropLast_append_getLastD first rest

/-- C5 witness: a concrete two-scene sequence with both durations at least 1
is returned unchanged. -/
theorem merge_short_scenes_idempotent_witness :
    merge_short_scenes [⟨0, 2, []⟩, ⟨2, 5, []⟩] 1 = [⟨0, 2, []⟩, ⟨2, 5, []⟩] :=
  merge_short_scenes_idempotent [⟨0, 2, []⟩, ⟨2, 5, []⟩] 1 (by with_unfolding_all decide)

/-- C2 counterexample: the ordered, non-overlapping input of two consecutive
scenes of duration 3/10 each, with `min_duration = 1`, merges into a single
scene of duration 3/5 < 1 — although the input contained two scenes, not
exactly one.  The undersized output comes from the final fallback branch of
`merge_short_scenes`, which is reached whenever the whole input fuses into
one still-short accumulator, not only on single-scene inputs. -/
theorem merge_short_scenes_undersized_counterexample :
    merge_short_scenes [⟨0, 3/10, []⟩, ⟨3/10, 6/10, []⟩] 1 = [⟨0, 3/5, []⟩] ∧
    Scene.duration ⟨0, 3/5, []⟩ < 1 ∧
    ([⟨0, 3/10, []⟩, ⟨3/10, 6/10, []⟩] : List Scene).length ≠ 1 ∧
    List.Chain' (fun a b => a.end_time ≤ b.start_time)
      [(⟨0, 3/10, []⟩ : Scene), ⟨3/10, 6/10, []⟩] ∧
    ∀ s ∈ [(⟨0, 3/10, []⟩ : Scene), ⟨3/10, 6/10, []⟩], s.start_time ≤ s.end_time := by
  refine ⟨by with_unfolding_all decide, by with_unfolding_all decide, by decide,
    List.chain'_pair.mpr (by with_unfolding_all decide), by with_unfolding_all decide⟩

/-- C2 (amended): on a non-empty ordered, non-overlapping input with
non-negative durations, the merge output starts at the input's first
`start_time`, ends at the input's last `end_time`, and contains no scene of
duration below `min_duration` unless the output consists of exactly one
scene (the input fused whole). -/
theorem merge_short_scenes_coverage (scenes : List Scene) (min_duration : ℚ)
    (hne : scenes ≠ [])
    (hord : List.Chain' (fun a b => a.end_time ≤ b.start_time) scenes)
    (hnn : ∀ s ∈ scenes, s.start_time ≤ s.end_time) :
    (merge_short_scenes scenes min_duration).headI.start_time = scenes.headI.start_time ∧
    (merge_short_scenes scenes min_duration).getLastI.end_time = scenes.getLastI.end_time ∧
    ((merge_short_scenes scenes min_duration).length = 1 ∨
      ∀ s ∈ merge_short_scenes scenes min_duration, min_duration ≤ s.duration) := by
  cases scenes with
  | nil => exact absurd rfl hne
  | cons first rest =>
    obtain ⟨chain, nonneg⟩ := merge_pass_chain min_duration rest first hord hnn
    have big := merge_pass_merged_ge min_duration rest first
    have hd := merge_pass_head_start min_duration rest first
    have lastend := merge_pass_last_end min_duration rest first
    rw [merge_short_scenes, getLastI_cons_eq first rest]
    by_cases hc : min_duration ≤ (merge_pass min_duration first rest).2.duration
    · rw [if_pos hc]
      refine ⟨?_, ?_, Or.inr ?_⟩
      · rw [headI_append_single, hd]
        rfl
      · rw [getLastI_append_single, lastend]
      · intro s hs
        rcases List.mem_append.mp hs with hs | hs
        · exact big s hs
        · rw [List.mem_singleton] at hs
          exact hs ▸ hc
    · rw [if_neg hc]
      rcases hm : (merge_pass min_duration first rest).1 with _ | ⟨m, ms⟩
      · rw [hm] at hd
        refine ⟨?_, ?_, Or.inl ?_⟩
        · show (merge_pass min_duration first rest).2.start_time = first.start_time
          exact hd
        · show (merge_pass min_duration first rest).2.end_time = _
          exact lastend
        · rfl
      · rw [hm] at hd big chain
        have hlast_end_le :
            ((m :: ms).getLast (List.cons_ne_nil m ms)).end_time ≤
              (merge_pass min_duration first rest).2.start_time := by
          have h1 := (List.chain'_append.mp chain).2.2
          refine h1 _ ?_ _ rfl
          rw [List.getLast?_eq_getLast (m :: ms) (List.cons_ne_nil m ms)]
          rfl
        have hnn2 : (merge_pass min_duration first rest).2.start_time ≤
            (merge_pass min_duration first rest).2.end_time :=
          nonneg _ (List.mem_append_right _ (List.mem_singleton_self _))
        refine ⟨?_, ?_, Or.inr ?_⟩
        · show ((m :: ms).dropLast ++
              [fuse_scenes ((m :: ms).getLast (List.cons_ne_nil m ms))
                (merge_pass min_duration first rest).2]).headI.start_time =
            (first :: rest).headI.start_time
          rw [headI_append_single]
          cases ms with
          | nil => exact hd
          | cons b t => exact hd
        · show ((m :: ms).dropLast ++
              [fuse_scenes ((m :: ms).getLast (List.cons_ne_nil m ms))
                (merge_pass min_duration first rest).2]).getLastI.end_time = _
          rw [getLastI_append_single]
          exact lastend
        · intro s hs
          have hs2 : s ∈ (m :: ms).dropLast ++
              [fuse_scenes ((m :: ms).getLast (List.cons_ne_nil m ms))
                (merge_pass min_duration first rest).2] := hs
          rcases List.mem_append.mp hs2 with hs3 | hs3
          · exact big s (List.dropLast_subset _ hs3)
          · rw [List.mem_singleton] at hs3
            subst hs3
            have hbig := big _ (List.getLast_mem (List.cons_ne_nil m ms))
            show min_duration ≤
              (merge_pass min_duration first rest).2.end_time -
                ((m :: ms).getLast (List.cons_ne_nil m ms)).start_time
            unfold Scene.duration at hbig
            linarith

/-- C2 witness: the coverage theorem applied to the concrete single-scene
input from 0 to 2 with `min_duration = 1`. -/
theorem merge_short_scenes_coverage_witness :
    (merge_short_scenes [⟨0, 2, []⟩] 1).headI.start_time =
        ([(⟨0, 2, []⟩ : Scene)]).headI.start_time ∧
    (merge_short_scenes [⟨0, 2, []⟩] 1).getLastI.end_time =
        ([(⟨0, 2, []⟩ : Scene)]).getLastI.end_time ∧
    ((merge_short_scenes [⟨0, 2, []⟩] 1).length = 1 ∨
      ∀ s ∈ merge_short_scenes [⟨0, 2, []⟩] 1, 1 ≤ s.duration) :=
  merge_short_scenes_coverage [⟨0, 2, []⟩] 1 (List.cons_ne_nil _ _)
    (List.chain'_singleton _) (by with_unfolding_all decide)

/-- C3 counterexample: on an inconsistent input — the second scene starts at
time 2, before the first ends at time 5, so the scenes overlap — the merge
does not fail in any way: it returns normally, echoing both scenes.  The
source contains no validation and no `InvalidInputError`. -/
theorem merge_short_scenes_no_validation_counterexample :
    merge_short_scenes [⟨0, 5, []⟩, ⟨2, 7, []⟩] 1 = [⟨0, 5, []⟩, ⟨2, 7, []⟩] ∧
    ¬ Scene.end_time ⟨0, 5, []⟩ ≤ Scene.start_time ⟨2, 7, []⟩ := by
  exact ⟨by with_unfolding_all decide, by with_unfolding_all decide⟩

/-- C3 (amended): `merge_short_scenes` has no failure path at all — it is a
total function that accepts every input, consistent or not — and its result
is empty exactly when the input is empty. -/
theorem merge_short_scenes_total (scenes : List Scene) (min_duration : ℚ) :
    merge_short_scenes scenes min_duration = [] ↔ scenes = [] := by
  constructor
  · intro h
    cases scenes with
    | nil => rfl
    | cons first rest =>
      rw [merge_short_scenes] at h
      by_cases hc : min_duration ≤ (merge_pass min_duration first rest).2.duration
      · rw [if_pos hc] at h
        exact absurd h (by simp)
      · rw [if_neg hc] at h
        rcases hm : (merge_pass min_duration first rest).1 with _ | ⟨m, ms⟩ <;>
          rw [hm] at h <;> exact absurd h (by simp)
  · intro h
    subst h
    rfl

/-! ## Lemmas about the text scores -/

/-- The keyword score is a nonnegative combination of tier counts. -/
theorem keyword_score_nonneg (t : List Char) : 0 ≤ keyword_score t := by
  unfold keyword_score
  positivity

/-- A sentence count is never zero: the split always yields at least one
piece. -/
theorem sentence_count_pos (l : List Char) : 1 ≤ sentence_count l := by
  unfold sentence_count
  omega

/-- C4: the heuristic content score lies in [0, 1] whenever the (lowercased)
text has at least 5 words and at least one sentence, and equals 0 whenever
the text has fewer than 5 words or zero sentences. -/
theorem score_text_with_keywords_range (text : String) :
    ((5 ≤ word_count (text.data.map Char.toLower) ∧
        1 ≤ sentence_count (text.data.map Char.toLower)) →
      0 ≤ score_text_with_keywords text ∧ score_text_with_keywords text ≤ 1) ∧
    ((word_count (text.data.map Char.toLower) < 5 ∨
        sentence_count (text.data.map Char.toLower) = 0) →
      score_text_with_keywords text = 0) := by
  unfold score_text_with_keywords
  constructor
  · intro hgood
    rw [if_neg (by omega)]
    constructor
    · apply le_min _ (by norm_num)
      have h1 := keyword_score_nonneg (text.data.map Char.toLower)
      have h2 : (0:ℚ) ≤
          (if (text.data.map Char.toLower).contains '?' then (0.2:ℚ) else 0) +
          (if (text.data.map Char.toLower).contains '!' then (0.15:ℚ) else 0) +
          (if (text.data.map Char.toLower).any Char.isDigit then (0.1:ℚ) else 0) +
          (if (text.data.map Char.toLower).contains (Char.ofNat 34) ||
              (text.data.map Char.toLower).contains (Char.ofNat 39) then (0.15:ℚ) else 0) +
          (if 10 ≤ word_count (text.data.map Char.toLower) ∧
              word_count (text.data.map Char.toLower) ≤ 30 then (0.2:ℚ) else 0) := by
        split_ifs <;> norm_num
      have h3 : (0:ℚ) ≤
          min ((word_count (text.data.map Char.toLower) : ℚ) /
            (sentence_count (text.data.map Char.toLower) : ℚ) / 10) 1 := by
        apply le_min _ (by norm_num)
        positivity
      linarith
    · exact min_le_right _ _
  · intro hbad
    rw [if_pos hbad]

/-- C4 witness: the range theorem applied to a concrete 5-word, 1-sentence
text. -/
theorem score_text_with_keywords_range_witness :
    0 ≤ score_text_with_keywords "hello there my good friend" ∧
      score_text_with_keywords "hello there my good friend" ≤ 1 :=
  (score_text_with_keywords_range "hello there my good friend").1
    (by with_unfolding_all decide)

/-- C10: the keyword list has 36 elements, so the emotional-trigger slice
(indices 40 to 51) and the call-to-action slice (from index 52) are empty,
their tier counts are always 0, and the keyword score always degenerates to
0.15 times the high-impact count plus 0.25 times the content-indicator
count. -/
theorem keyword_tiers_empty (t : List Char) :
    viral_keywords.length = 36 ∧
    tier_count ((viral_keywords.drop 40).take 12) t = 0 ∧
    tier_count (viral_keywords.drop 52) t = 0 ∧
    keyword_score t =
      (tier_count (viral_keywords.take 30) t : ℚ) * 0.15 +
      (tier_count ((viral_keywords.drop 30).take 10) t : ℚ) * 0.25 := by
  refine ⟨rfl, rfl, rfl, ?_⟩
  unfold keyword_score
  rw [show ((viral_keywords.drop 40).take 12) = [] from rfl,
    show (viral_keywords.drop 52) = [] from rfl]
  simp [tier_count]

/-- C7 counterexample: a successfully returned Cohere response from which no
numeric score can be parsed is not recovered by the heuristic fallback — the
code returns the fixed default 0.5, while the heuristic score of the same
text is 3/20. -/
theorem cohere_unparsed_response_counterexample :
    score_text_with_cohere (.response "no digits") "hello there my good friend" = 1/2 ∧
    score_text_with_keywords "hello there my good friend" = 3/20 ∧
    (1/2 : ℚ) ≠ 3/20 :=
  ⟨by with_unfolding_all decide, by with_unfolding_all decide, by with_unfolding_all decide⟩

/-- C7 (amended): every exception raised by the external Cohere call is
recovered by returning the local heuristic score, and no failure propagates
(the embedding is a total function of the call outcome); a successful
response with no parseable number, however, is not treated as a failure and
yields the constant 0.5 instead of the heuristic score. -/
theorem cohere_exception_fallback (text generationText : String) :
    score_text_with_cohere .exception text = score_text_with_keywords text ∧
    (first_number (strip_chars generationText.data) = none →
      score_text_with_cohere (.response generationText) text = 0.5) := by
  refine ⟨rfl, ?_⟩
  intro h
  simp only [score_text_with_cohere]
  rw [h]

/-- C7 witness: the fallback theorem applied to concrete strings, with the
no-parseable-number hypothesis discharged on a digit-free response. -/
theorem cohere_exception_fallback_witness :
    score_text_with_cohere (.response "xyz") "abc" = 0.5 :=
  (cohere_exception_fallback "abc" "xyz").2 (by decide)

/-! ## Lemmas about candidate building and greedy selection -/

/-- The emit check only ever appends: everything accumulated so far stays. -/
theorem mem_emit_candidate (scenes : List Scene) (i j : ℕ)
    (adaptive_min adaptive_max dur1 : ℚ) (natural_break : Bool)
    (acc : List (List Scene)) (l : List Scene) (hl : l ∈ acc) :
    l ∈ emit_candidate scenes i j adaptive_min adaptive_max dur1 natural_break acc := by
  unfold emit_candidate
  split_ifs
  · exact List.mem_append_left _ hl
  · exact hl

/-- When the window has reached `adaptive_min` and sits at a natural break,
the emit check records the context-extended slice. -/
theorem emit_candidate_on_break (scenes : List Scene) (i j : ℕ)
    (adaptive_min adaptive_max dur1 : ℚ) (natural_break : Bool)
    (acc : List (List Scene)) (hmin : adaptive_min ≤ dur1) (hnb : natural_break = true) :
    (scenes.take (min scenes.length (j + 2))).drop (i - 1) ∈
      emit_candidate scenes i j adaptive_min adaptive_max dur1 natural_break acc := by
  unfold emit_candidate
  rw [if_pos (Or.inr ⟨hmin, hnb⟩)]
  exact List.mem_append_right _ (List.mem_singleton_self _)

/-- The growth loop only ever appends to the accumulated group list. -/
theorem grow_candidates_superset (min_duration max_duration : ℚ)
    (scenes : List Scene) (i : ℕ) :
    ∀ (fuel j : ℕ) (group : List Scene) (dur sf tf : ℚ) (acc : List (List Scene))
      (l : List Scene), l ∈ acc →
      l ∈ grow_candidates min_duration max_duration scenes i fuel j group dur sf tf acc := by
  intro fuel
  induction fuel with
  | zero => intro j group dur sf tf acc l hl; exact hl
  | succ fuel ih =>
    intro j group dur sf tf acc l hl
    rw [grow_candidates]
    by_cases hstop : max_duration < dur + (scenes.getD j default).duration
    · rw [if_pos hstop]
      exact mem_emit_candidate _ _ _ _ _ _ _ _ _ hl
    · rw [if_neg hstop]
      exact ih _ _ _ _ _ _ _ (mem_emit_candidate _ _ _ _ _ _ _ _ _ hl)

/-- C9 (amended): at any reached step `j` of the window grown from start
index `i`, if the accumulated duration including scene `j` has reached
`adaptive_min = min_duration` and the natural-break test of the source holds
— which requires `j > i` and `j < len(scenes) - 1` besides scene `j` having
no speech and scene `j+1` having speech — then the context-extended slice
`scenes[max(0, i-1) : min(len(scenes), j+2)]` is recorded.  For `j = i` the
natural-break test of the source is false, so no such emission happens. -/
theorem grow_candidates_emits_on_natural_break (min_duration max_duration : ℚ)
    (scenes : List Scene) (i fuel j : ℕ) (group : List Scene) (dur sf tf : ℚ)
    (acc : List (List Scene))
    (hmin : min_duration ≤ dur + (scenes.getD j default).duration)
    (hij : i < j) (hnext : j + 1 < scenes.length)
    (hsil : (scenes.getD j default).speech_segments = [])
    (hspeech : (scenes.getD (j + 1) default).speech_segments ≠ []) :
    (scenes.take (min scenes.length (j + 2))).drop (i - 1) ∈
      grow_candidates min_duration max_duration scenes i (fuel + 1) j group dur sf tf acc := by
  rw [grow_candidates]
  have hnb : decide (i < j ∧ j + 1 < scenes.length ∧
      (scenes.getD j default).speech_segments = [] ∧
      (scenes.getD (j + 1) default).speech_segments ≠ []) = true := by
    rw [decide_eq_true_iff]
    exact ⟨hij, hnext, hsil, hspeech⟩
  by_cases hstop : max_duration < dur + (scenes.getD j default).duration
  · rw [if_pos hstop]
    exact emit_candidate_on_break _ _ _ _ _ _ _ _ hmin hnb
  · rw [if_neg hstop]
    exact grow_candidates_superset _ _ _ _ _ _ _ _ _ _ _ _
      (emit_candidate_on_break _ _ _ _ _ _ _ _ hmin hnb)

/-- C9 witness: on three concrete scenes, at start index 0 and window end 1,
the window has duration 40 at a natural break (scene 1 silent, scene 2 with
speech), and the slice covering all three scenes is recorded. -/
theorem grow_candidates_emits_on_natural_break_witness :
    ((([⟨0, 20, [(0, 20)]⟩, ⟨20, 40, []⟩, ⟨40, 41, [(40, 41)]⟩] : List Scene).take
        (min 3 3)).drop 0) ∈
      grow_candidates 30 90 [⟨0, 20, [(0, 20)]⟩, ⟨20, 40, []⟩, ⟨40, 41, [(40, 41)]⟩]
        0 2 1 [⟨0, 20, [(0, 20)]⟩] 20 600 600 [] :=
  grow_candidates_emits_on_natural_break 30 90
    [⟨0, 20, [(0, 20)]⟩, ⟨20, 40, []⟩, ⟨40, 41, [(40, 41)]⟩] 0 1 1
    [⟨0, 20, [(0, 20)]⟩] 20 600 600 []
    (by with_unfolding_all decide) (by decide) (by decide)
    (by decide) (by decide)

/-- C9 counterexample: two concrete scenes where, at start index `i = 0` and
window end `j = 0`, the accumulated duration 40 exceeds `adaptive_min = 30`,
scene `j` has no speech and scene `j+1` has speech — yet the candidate
builder emits nothing at all, because the natural-break test of the source
additionally requires `j > i`: the claim fails for `j = i`. -/
theorem natural_break_at_start_counterexample :
    scene_groups 30 90 [⟨0, 40, []⟩, ⟨40, 41, [(40, 41)]⟩] = [] ∧
    (Scene.speech_segments ⟨0, 40, []⟩ = []) ∧
    (Scene.speech_segments ⟨40, 41, [(40, 41)]⟩ ≠ []) ∧
    (30 : ℚ) ≤ Scene.duration ⟨0, 40, []⟩ :=
  ⟨by with_unfolding_all decide, rfl, by decide, by with_unfolding_all decide⟩

/-- Groups appended by the greedy loop never conflict with an already
selected group, so pairwise separation is a loop invariant. -/
theorem greedy_select_pairwise (max_highlights : ℕ) :
    ∀ (rest selected : List ScoredGroup),
      selected.Pairwise
        (fun a b => a.end_time ≤ b.start_time ∨ b.end_time ≤ a.start_time) →
      (greedy_select max_highlights selected rest).Pairwise
        (fun a b => a.end_time ≤ b.start_time ∨ b.end_time ≤ a.start_time) := by
  intro rest
  induction rest with
  | nil => intro selected h; exact h
  | cons g rest ih =>
    intro selected h
    rw [greedy_select]
    by_cases hov : overlaps_any g selected = true
    · rw [if_pos hov]
      exact ih selected h
    · rw [if_neg hov]
      have hsep : ∀ s ∈ selected, s.end_time ≤ g.start_time ∨ g.end_time ≤ s.start_time := by
        intro s hs
        have h1 : overlaps_any g selected = false := Bool.eq_false_iff.mpr hov
        rw [overlaps_any, List.any_eq_false] at h1
        have h2 := h1 s hs
        rw [decide_eq_true_iff] at h2
        push_neg at h2
        by_cases h3 : g.start_time < s.end_time
        · exact Or.inr (h2 h3)
        · exact Or.inl (le_of_not_lt h3)
      have hpw : (selected ++ [g]).Pairwise
          (fun a b => a.end_time ≤ b.start_time ∨ b.end_time ≤ a.start_time) := by
        rw [List.pairwise_append]
        refine ⟨h, List.pairwise_singleton _ _, ?_⟩
        intro a ha b hb
        rw [List.mem_singleton] at hb
        subst hb
        exact hsep a ha
      by_cases hlen : max_highlights ≤ (selected ++ [g]).length
      · rw [if_pos hlen]
        exact hpw
      · rw [if_neg hlen]
        exact ih _ hpw

/-- C1: the highlight list returned by `select_highlights` is pairwise
non-overlapping in time: for any two highlights in it, one ends no later
than the other starts. -/
theorem select_highlights_nonoverlap (min_duration max_duration : ℚ)
    (scenes : List Scene) (transcription_result : Option TranscriptionResult)
    (max_highlights : ℕ) :
    (select_highlights min_duration max_duration scenes transcription_result
        max_highlights).Pairwise
      (fun a b => a.end_time ≤ b.start_time ∨ b.end_time ≤ a.start_time) := by
  unfold select_highlights
  rw [List.pairwise_map]
  exact greedy_select_pairwise max_highlights _ [] List.Pairwise.nil

/-- Once fewer groups are selected than `max_highlights`, the greedy loop
stops as soon as the count reaches the cap, so it never exceeds it. -/
theorem greedy_select_length (max_highlights : ℕ) :
    ∀ (rest selected : List ScoredGroup), selected.length < max_highlights →
      (greedy_select max_highlights selected rest).length ≤ max_highlights := by
  intro rest
  induction rest with
  | nil => intro selected h; exact le_of_lt h
  | cons g rest ih =>
    intro selected h
    rw [greedy_select]
    by_cases hov : overlaps_any g selected = true
    · rw [if_pos hov]
      exact ih selected h
    · rw [if_neg hov]
      by_cases hlen : max_highlights ≤ (selected ++ [g]).length
      · rw [if_pos hlen]
        rw [List.length_append, List.length_singleton]
        omega
      · rw [if_neg hlen]
        apply ih
        rw [List.length_append, List.length_singleton] at hlen ⊢
        omega

/-- C8 counterexample: with `max_highlights = 0` and one viable candidate,
`select_highlights` still returns one highlight — the cap is checked only
after a candidate has been appended, so the bound fails for 0. -/
theorem select_highlights_zero_cap_counterexample :
    (select_highlights 30 90 [⟨0, 30, [(0, 30)]⟩] none 0).length = 1 ∧
    ¬ (select_highlights 30 90 [⟨0, 30, [(0, 30)]⟩] none 0).length ≤ 0 :=
  ⟨by with_unfolding_all decide, by with_unfolding_all decide⟩

/-- C8 (amended): for every positive `max_highlights`, `select_highlights`
returns at most `max_highlights` highlights.  (For `max_highlights = 0` the
cap can be exceeded by one, as the counterexample shows.) -/
theorem select_highlights_bounded (min_duration max_duration : ℚ)
    (scenes : List Scene) (transcription_result : Option TranscriptionResult)
    (max_highlights : ℕ) (hpos : 1 ≤ max_highlights) :
    (select_highlights min_duration max_duration scenes transcription_result
        max_highlights).length ≤ max_highlights := by
  unfold select_highlights
  rw [List.length_map]
  exact greedy_select_length max_highlights _ [] (by simpa using hpos)

/-- C8 witness: the bound theorem applied at a concrete input with
`max_highlights = 1`. -/
theorem select_highlights_bounded_witness :
    (select_highlights 30 90 [⟨0, 30, [(0, 30)]⟩] none 1).length ≤ 1 :=
  select_highlights_bounded 30 90 [⟨0, 30, [(0, 30)]⟩] none 1 (le_refl 1)

/-- C6: every scored candidate group stores exactly the last scene's
`end_time` as its `end_time` — the right-side context pad
`min(group_end + pad, group_end)` is a no-op — while its `start_time` is the
first scene's `start_time` padded left by `context_window` and clamped at
0. -/
theorem scored_group_pad (min_duration max_duration : ℚ) (scenes : List Scene)
    (words : List Timestamp) (g : ScoredGroup)
    (hg : g ∈ scored_groups min_duration max_duration scenes words) :
    g.end_time = g.scenes.getLastI.end_time ∧
    g.start_time = max 0 (g.scenes.headI.start_time - context_window) := by
  rcases List.mem_map.mp hg with ⟨group, _, rfl⟩
  unfold make_scored_group
  refine ⟨?_, rfl⟩
  show min (group.getLastI.end_time + context_window) group.getLastI.end_time = _
  rw [min_eq_right (le_add_of_nonneg_right (by norm_num [context_window]))]

/-- C6 witness: the pad theorem applied to the one concrete scored group
produced from a single 30-second scene with full speech. -/
theorem scored_group_pad_witness :
    (⟨[⟨0, 30, [(0, 30)]⟩], 0, 30, 30, "", 1/50⟩ : ScoredGroup).end_time =
        (⟨[⟨0, 30, [(0, 30)]⟩], 0, 30, 30, "", 1/50⟩ : ScoredGroup).scenes.getLastI.end_time ∧
    (⟨[⟨0, 30, [(0, 30)]⟩], 0, 30, 30, "", 1/50⟩ : ScoredGroup).start_time =
        max 0 ((⟨[⟨0, 30, [(0, 30)]⟩], 0, 30, 30, "", 1/50⟩ :
          ScoredGroup).scenes.headI.start_time - context_window) :=
  scored_group_pad 30 90 [⟨0, 30, [(0, 30)]⟩] []
    ⟨[⟨0, 30, [(0, 30)]⟩], 0, 30, 30, "", 1/50⟩ (by with_unfolding_all decide)

end ShortsGen
